import Mathlib

/-!
Verification development for the group-ssh-chat server core:
the command dispatcher (`commands/commands.go`), the built-in command
handlers (`commands/whisper.go`, help, users, clear), the session
registry and broadcast engine (`sshserver/server.go`), and the
terminal input loop (`ui` bridge `Start`).

Strings read from the wire are modelled as `List Char`; messages built
by the handlers are modelled as Lean `String`.
-/

namespace GroupChat

/-! ## Command dispatcher (commands/commands.go) -/

/-- Go `strings.SplitN(s, " ", 2)`: split `s` around the first `' '`,
returning the part before it and, when a space exists, the remainder
after it (`none` when `s` contains no space). -/
def splitFirstSpace : List Char → List Char × Option (List Char)
  | [] => ([], none)
  | c :: rest =>
    if c = ' ' then ([], some rest)
    else
      let p := splitFirstSpace rest
      (c :: p.1, p.2)

/-- Go `strings.Split(s, " ")`: split `s` around every single `' '`,
keeping empty pieces produced by adjacent separators. -/
def splitOnSpace : List Char → List (List Char)
  | [] => [[]]
  | c :: rest =>
    if c = ' ' then [] :: splitOnSpace rest
    else
      match splitOnSpace rest with
      | [] => [[c]]
      | t :: ts => (c :: t) :: ts

/-- Join pieces with a single `' '` between them (Go `strings.Join(xs, " ")`
on char lists); inverse of `splitOnSpace`. -/
def joinSpace : List (List Char) → List Char
  | [] => []
  | [x] => x
  | x :: xs => x ++ ' ' :: joinSpace xs

/-- The dispatcher's parse of a marker-stripped input line
(`commands.go` lines 42–48): `strings.SplitN(input[1:], " ", 2)` gives
the command keyword and optional remainder; the remainder, when
present, is `strings.Split` on `" "` into the argument list, and the
argument list is empty when there is no remainder. -/
def parseLine (rest : List Char) : List Char × List (List Char) :=
  let p := splitFirstSpace rest
  (p.1, match p.2 with
        | none => []
        | some r => splitOnSpace r)

/-- Lookup in the command table (Go `cm.commands[command]`). -/
def lookupCmd {α : Type} : List (List Char × α) → List Char → Option α
  | [], _ => none
  | (k, v) :: rest, key => if k = key then some v else lookupCmd rest key

/-- A registered handler as seen by the dispatcher:
`HandleCommand(command, args, sender) (bool, error)`. -/
def Handler : Type := List Char → List (List Char) → String → Bool × Option (List Char)

/-- Observable outcome of one `CommandManager.HandleCommand` call:
the returned `(isCommand, error)` pair plus the list of handler
invocations the call performed (each recorded as `(command, args,
sender)`). -/
structure DispatchResult where
  isCommand : Bool
  err : Option (List Char)
  invoked : List (List Char × List (List Char) × String)
  deriving DecidableEq, Repr

/-- Go `fmt.Errorf("unknown command: %s", command)`. -/
def unknownCommandError (command : List Char) : List Char :=
  "unknown command: ".toList ++ command

/-- `CommandManager.HandleCommand` (commands.go lines 35–58): a line not
starting with `'/'` is not a command; otherwise the marker is stripped,
the line parsed by `parseLine`, the keyword looked up, and either an
unknown-command error returned or the handler invoked with
`(command, args, sender)` and its result passed through. -/
def handleCommand (table : List (List Char × Handler)) (input : List Char)
    (sender : String) : DispatchResult :=
  match input with
  | [] => ⟨false, none, []⟩
  | c :: rest =>
    if c = '/' then
      let p := parseLine rest
      match lookupCmd table p.1 with
      | none => ⟨true, some (unknownCommandError p.1), []⟩
      | some h =>
        let r := h p.1 p.2 sender
        ⟨r.1, r.2, [(p.1, p.2, sender)]⟩
    else ⟨false, none, []⟩

/-! ## Built-in command handlers -/

/-- One observable effect of a built-in handler: a system-message reply
through the injected `systemMessageFunc`, a private-message delivery
through `whisperFunc`, or a screen clear through `clearFunc`. -/
inductive ChatEffect where
  | systemMessage (text : String)
  | whisperMsg (sender recipient message : String)
  | clearScreen
  deriving DecidableEq, Repr

/-- `WhisperCommand.HandleCommand` (whisper.go lines 29–47): usage
notice when fewer than two arguments; "not found" notice when the
recipient does not exist; otherwise one whisper delivery of the
space-joined message. Always returns `(true, nil)`. -/
def whisperHandleCommand (userExists : String → Bool) (command : String)
    (args : List String) (sender : String) :
    List ChatEffect × Bool × Option String :=
  match args with
  | recipient :: m :: ms =>
    let message := String.intercalate " " (m :: ms)
    if userExists recipient then
      ([.whisperMsg sender recipient message], true, none)
    else
      ([.systemMessage ("User '" ++ recipient ++ "' not found")], true, none)
  | _ => ([.systemMessage "Usage: /whisper <username> <message>"], true, none)

/-- `HelpCommand.HandleCommand`: replies with the manager's help text,
returns `(true, nil)`. -/
def helpHandleCommand (helpText : String) (command : String)
    (args : List String) (sender : String) :
    List ChatEffect × Bool × Option String :=
  ([.systemMessage helpText], true, none)

/-- `UsersCommand.HandleCommand`: explicit notice when nobody is online,
otherwise a count plus a listing; returns `(true, nil)`. -/
def usersHandleCommand (users : List String) (command : String)
    (args : List String) (sender : String) :
    List ChatEffect × Bool × Option String :=
  if users.length = 0 then
    ([.systemMessage "No users are currently online"], true, none)
  else
    ([.systemMessage ("Online users (" ++ toString users.length ++ "):\n"
        ++ String.join (users.map (fun u => "- " ++ u ++ "\n")))], true, none)

/-- `ClearCommand.HandleCommand`: clears the issuer's screen, then
confirms; returns `(true, nil)`. -/
def clearHandleCommand (command : String) (args : List String)
    (sender : String) : List ChatEffect × Bool × Option String :=
  ([.clearScreen, .systemMessage "Screen cleared"], true, none)

/-! ## Lemmas about the dispatcher's splitting -/

/-- `splitFirstSpace` really splits at the first space: when no space is
reported the input is returned whole and is space-free; when a remainder
is reported, the input is the space-free keyword, the space, and the
remainder. -/
theorem splitFirstSpace_spec (l : List Char) :
    (match splitFirstSpace l with
     | (k, none) => l = k ∧ ' ' ∉ k
     | (k, some r) => l = k ++ ' ' :: r ∧ ' ' ∉ k) := by
  induction l with
  | nil => simp [splitFirstSpace]
  | cons c rest ih =>
    by_cases hc : c = ' '
    · simp [splitFirstSpace, hc]
    · rcases h : splitFirstSpace rest with ⟨k, rem⟩
      rw [h] at ih
      cases rem with
      | none =>
        simp only [splitFirstSpace, hc, if_false, h]
        refine ⟨by rw [ih.1], ?_⟩
        intro hm
        rcases List.mem_cons.mp hm with h1 | h2
        · exact hc h1.symm
        · exact ih.2 h2
      | some r =>
        simp only [splitFirstSpace, hc, if_false, h]
        refine ⟨by simp [List.cons_append, ih.1], ?_⟩
        intro hm
        rcases List.mem_cons.mp hm with h1 | h2
        · exact hc h1.symm
        · exact ih.2 h2

/-- `splitOnSpace` always yields at least one piece. -/
theorem splitOnSpace_ne_nil (l : List Char) : splitOnSpace l ≠ [] := by
  cases l with
  | nil => simp [splitOnSpace]
  | cons c rest =>
    by_cases hc : c = ' '
    · simp [splitOnSpace, hc]
    · simp only [splitOnSpace, hc, if_false]
      rcases h : splitOnSpace rest with _ | ⟨t, ts⟩ <;> simp

/-- Unfolding `joinSpace` on a cons with a nonempty tail. -/
theorem joinSpace_cons (x : List Char) (xs : List (List Char)) (h : xs ≠ []) :
    joinSpace (x :: xs) = x ++ ' ' :: joinSpace xs := by
  cases xs with
  | nil => exact absurd rfl h
  | cons y ys => rfl

/-- Joining the pieces of `splitOnSpace` with single spaces restores the
input: the split is around single spaces and loses nothing. -/
theorem joinSpace_splitOnSpace (l : List Char) :
    joinSpace (splitOnSpace l) = l := by
  induction l with
  | nil => simp [splitOnSpace, joinSpace]
  | cons c rest ih =>
    by_cases hc : c = ' '
    · rw [splitOnSpace, if_pos hc,
        joinSpace_cons [] (splitOnSpace rest) (splitOnSpace_ne_nil rest), ih, hc]
      rfl
    · rw [splitOnSpace, if_neg hc]
      rcases h : splitOnSpace rest with _ | ⟨t, ts⟩
      · exact absurd h (splitOnSpace_ne_nil rest)
      · rw [h] at ih
        cases ts with
        | nil => simpa [joinSpace] using ih
        | cons t2 ts2 =>
          rw [joinSpace_cons (c :: t) (t2 :: ts2) (by simp),
            ← ih, joinSpace_cons t (t2 :: ts2) (by simp)]
          rfl

/-- No piece produced by `splitOnSpace` contains a space. -/
theorem splitOnSpace_no_space (l : List Char) :
    ∀ p ∈ splitOnSpace l, ' ' ∉ p := by
  induction l with
  | nil =>
    intro p hp
    simp only [splitOnSpace, List.mem_singleton] at hp
    simp [hp]
  | cons c rest ih =>
    intro p hp
    by_cases hc : c = ' '
    · rw [splitOnSpace, if_pos hc] at hp
      rcases List.mem_cons.mp hp with h1 | h2
      · simp [h1]
      · exact ih p h2
    · rw [splitOnSpace, if_neg hc] at hp
      rcases h : splitOnSpace rest with _ | ⟨t, ts⟩
      · exact absurd h (splitOnSpace_ne_nil rest)
      · rw [h] at hp ih
        rcases List.mem_cons.mp hp with h1 | h2
        · subst h1
          intro hm
          rcases List.mem_cons.mp hm with h3 | h4
          · exact hc h3.symm
          · exact ih t (List.mem_cons_self t ts) h4
        · exact ih p (List.mem_cons_of_mem t h2)

/-! ## Claim theorems for the dispatcher -/

/-- C2: for every input line that does not begin with the marker `'/'`
and every sender, `CommandManager.HandleCommand` returns
`(isCommand = false, error = nil)` and invokes no registered handler,
whatever the command table holds. -/
theorem handleCommand_non_marker_is_chat (table : List (List Char × Handler))
    (input : List Char) (sender : String)
    (h : input.head? ≠ some '/') :
    handleCommand table input sender = ⟨false, none, []⟩ := by
  cases input with
  | nil => rfl
  | cons c rest =>
    have hc : c ≠ '/' := fun he => h (by simp [he])
    simp [handleCommand, hc]

/-- Witness for C2 at the concrete chat line `"hi"` with an empty table:
the hypothesis holds and the dispatch result is `(false, nil)` with no
handler invocation. -/
theorem handleCommand_non_marker_is_chat_witness :
    (['h', 'i'] : List Char).head? ≠ some '/' ∧
    handleCommand [] ['h', 'i'] "alice" = ⟨false, none, []⟩ :=
  ⟨by decide, handleCommand_non_marker_is_chat [] ['h', 'i'] "alice" (by decide)⟩

/-- C3 counterexample: the dispatcher's own parse (`parseLine`, the
split `HandleCommand` performs on a marker-stripped line) of the input
`"/a  b"` — marker already stripped, so `"a  b"` with two adjacent
spaces — produces the argument list `["", "b"]`, which contains the
empty-string argument the claim says can never occur. -/
theorem parseLine_double_space_empty_arg :
    parseLine ['a', ' ', ' ', 'b'] = (['a'], [[], ['b']]) ∧
    ([] : List Char) ∈ (parseLine ['a', ' ', ' ', 'b']).2 := by
  constructor
  · rfl
  · simp [parseLine, splitFirstSpace, splitOnSpace]

/-- C3 (amended): the dispatcher's parse splits the marker-stripped line
at the first single space into a space-free keyword and a remainder, and
splits the remainder on each single space (keeping empty pieces), so
joining keyword and arguments with single spaces restores the line, and
the argument list is empty exactly when the line has no space. -/
theorem parseLine_single_space_split (rest : List Char) :
    ' ' ∉ (parseLine rest).1 ∧
    joinSpace ((parseLine rest).1 :: (parseLine rest).2) = rest ∧
    ((parseLine rest).2 = [] ↔ ' ' ∉ rest) := by
  have hs := splitFirstSpace_spec rest
  rcases h : splitFirstSpace rest with ⟨k, rem⟩
  rw [h] at hs
  cases rem with
  | none =>
    simp only [parseLine, h]
    refine ⟨hs.2, ?_, ?_⟩
    · rw [joinSpace, hs.1]
    · simp only [true_iff]
      rw [hs.1]
      exact hs.2
  | some r =>
    simp only [parseLine, h]
    refine ⟨hs.2, ?_, ?_⟩
    · rw [joinSpace_cons k (splitOnSpace r) (splitOnSpace_ne_nil r),
        joinSpace_splitOnSpace, hs.1]
    · constructor
      · intro he
        exact absurd he (splitOnSpace_ne_nil r)
      · intro hnm
        exfalso
        exact hnm (by rw [hs.1]; exact List.mem_append_right k (List.mem_cons_self _ _))

/-- C4: a marker-prefixed input whose keyword is not in the command
table yields `(isCommand = true, error)` where the error message names
the unknown keyword; no handler is invoked. -/
theorem handleCommand_unknown_keyword (table : List (List Char × Handler))
    (rest : List Char) (sender : String)
    (h : lookupCmd table (parseLine rest).1 = none) :
    handleCommand table ('/' :: rest) sender
      = ⟨true, some (unknownCommandError (parseLine rest).1), []⟩ ∧
    (parseLine rest).1 <:+ unknownCommandError (parseLine rest).1 := by
  constructor
  · simp [handleCommand, h]
  · exact ⟨"unknown command: ".toList, rfl⟩

/-- Witness for C4 at the concrete input `"/boop"` with an empty command
table: the lookup misses, the result is `(true, unknown-command error)`,
no handler runs, and the keyword is a suffix of the error message. -/
theorem handleCommand_unknown_keyword_witness :
    lookupCmd ([] : List (List Char × Handler)) (parseLine "boop".toList).1 = none ∧
    (handleCommand [] ('/' :: "boop".toList) "alice"
      = ⟨true, some (unknownCommandError (parseLine "boop".toList).1), []⟩ ∧
     (parseLine "boop".toList).1 <:+ unknownCommandError (parseLine "boop".toList).1) :=
  ⟨rfl, handleCommand_unknown_keyword [] "boop".toList "alice" rfl⟩

/-! ## Session registry (sshserver/server.go) -/

/-- One entry of `activeClientsMap`'s session slices: the session's
unique id and whether its `ui` bridge is usable (`ui != nil`). -/
structure ClientSession where
  id : String
  uiOk : Bool
  deriving DecidableEq, Repr

/-- The `activeClientsMap`: username to that user's active sessions.
The Go map is modelled as an association list; Go's unspecified map
iteration order becomes the list order. -/
abbrev Registry := List (String × List ClientSession)

/-- All session ids currently in the registry, per identity in order. -/
def sessionIds (reg : Registry) : List String :=
  (reg.map (fun e => e.2.map (fun s => s.id))).flatten

/-- Registering a session (`handleConnection` lines 340–359): the new
session is appended to the connecting user's slice, the slice being
created first when the user has no entry yet. -/
def registerSession : Registry → String → ClientSession → Registry
  | [], user, cs => [(user, [cs])]
  | (u, ss) :: rest, user, cs =>
    if u = user then (u, ss ++ [cs]) :: rest
    else (u, ss) :: registerSession rest user cs

/-- `removeClientSession` (server.go lines 536–572): scan the users; in
the first slice holding the id, drop every session with that id, delete
the user's entry when the slice became empty, and stop; a user whose
slice lacks the id is left untouched and the scan continues. -/
def removeClientSession : Registry → String → Registry
  | [], _ => []
  | (u, ss) :: rest, sessionId =>
    if ss.any (fun s => s.id == sessionId) then
      let updated := ss.filter (fun s => s.id != sessionId)
      if updated.isEmpty then rest else (u, updated) :: rest
    else (u, ss) :: removeClientSession rest sessionId

/-- The registry invariant: no identity maps to an empty session slice,
and no session id occurs twice (in one slice or across slices). -/
def registryWF (reg : Registry) : Prop :=
  (∀ e ∈ reg, e.2 ≠ []) ∧ (sessionIds reg).Nodup

/-- `sessionIds` unfolds over a cons. -/
theorem sessionIds_cons (u : String) (ss : List ClientSession) (rest : Registry) :
    sessionIds ((u, ss) :: rest) = ss.map (fun s => s.id) ++ sessionIds rest := rfl

/-- A slice's `any`-test for an id is false exactly when the id is not
among the slice's ids. -/
theorem any_id_eq_false_iff (ss : List ClientSession) (sessionId : String) :
    (ss.any (fun s => s.id == sessionId) = false)
      ↔ sessionId ∉ ss.map (fun s => s.id) := by
  rw [← Bool.not_eq_true, List.any_eq_true]
  simp

/-- Removing an id no slice contains changes nothing. -/
theorem removeClientSession_noop (reg : Registry) (sessionId : String)
    (h : sessionId ∉ sessionIds reg) :
    removeClientSession reg sessionId = reg := by
  induction reg with
  | nil => rfl
  | cons e rest ih =>
    rcases e with ⟨u, ss⟩
    rw [sessionIds_cons] at h
    have h1 : sessionId ∉ ss.map (fun s => s.id) :=
      fun hm => h (List.mem_append_left _ hm)
    have h2 : sessionId ∉ sessionIds rest :=
      fun hm => h (List.mem_append_right _ hm)
    have hany : ss.any (fun s => s.id == sessionId) = false :=
      (any_id_eq_false_iff ss sessionId).mpr h1
    simp [removeClientSession, hany, ih h2]

/-- After removing an id from a duplicate-free registry, the id is gone. -/
theorem removeClientSession_not_mem (reg : Registry) (sessionId : String)
    (h : (sessionIds reg).Nodup) :
    sessionId ∉ sessionIds (removeClientSession reg sessionId) := by
  induction reg with
  | nil => simp [removeClientSession, sessionIds]
  | cons e rest ih =>
    rcases e with ⟨u, ss⟩
    rw [sessionIds_cons] at h
    have hnd := List.nodup_append.mp h
    rcases hany : ss.any (fun s => s.id == sessionId) with _ | _
    · -- id not in this slice: recurse
      have h1 : sessionId ∉ ss.map (fun s => s.id) :=
        (any_id_eq_false_iff ss sessionId).mp hany
      have ih2 := ih hnd.2.1
      simp only [removeClientSession, hany, Bool.false_eq_true, if_false,
        sessionIds_cons]
      intro hm
      rcases List.mem_append.mp hm with hm1 | hm2
      · exact h1 hm1
      · exact ih2 hm2
    · -- id in this slice: it is filtered out here and absent elsewhere
      have hmem : sessionId ∈ ss.map (fun s => s.id) := by
        rcases List.any_eq_true.mp hany with ⟨s, hs, hid⟩
        exact List.mem_map.mpr ⟨s, hs, (beq_iff_eq.mp hid)⟩
      have hrest : sessionId ∉ sessionIds rest := fun hm =>
        hnd.2.2 hmem hm
      have hfilt : sessionId ∉ (ss.filter (fun s => s.id != sessionId)).map
          (fun s => s.id) := by
        intro hm
        rcases List.mem_map.mp hm with ⟨s, hs, hid⟩
        rcases List.mem_filter.mp hs with ⟨_, hne⟩
        exact absurd hid (by simpa [bne_iff_ne] using hne)
      simp only [removeClientSession, hany, if_true]
      rcases he : (ss.filter (fun s => s.id != sessionId)).isEmpty with _ | _
      · simp only [he, Bool.false_eq_true, if_false, sessionIds_cons]
        intro hm
        rcases List.mem_append.mp hm with hm1 | hm2
        · exact hfilt hm1
        · exact hrest hm2
      · simp only [he, if_true]
        exact hrest

/-- C5: removal is idempotent on a registry whose session ids are
duplicate-free (the registry invariant), and removing an id absent from
every identity's slice is a no-op. -/
theorem removeClientSession_idempotent_noop (reg : Registry) (sessionId : String) :
    ((sessionIds reg).Nodup →
      removeClientSession (removeClientSession reg sessionId) sessionId
        = removeClientSession reg sessionId) ∧
    (sessionId ∉ sessionIds reg → removeClientSession reg sessionId = reg) := by
  constructor
  · intro h
    exact removeClientSession_noop _ _ (removeClientSession_not_mem reg sessionId h)
  · exact removeClientSession_noop reg sessionId

/-- Witness for C5 on a concrete registry with identities `alice` and
`bob`: the id-uniqueness hypothesis holds, removing session `s2` twice
equals removing it once, and removing the never-registered id `zz`
changes nothing. -/
theorem removeClientSession_idempotent_noop_witness :
    (sessionIds [("alice", [⟨"s1", true⟩]), ("bob", [⟨"s2", true⟩])]).Nodup ∧
    removeClientSession (removeClientSession
        [("alice", [⟨"s1", true⟩]), ("bob", [⟨"s2", true⟩])] "s2") "s2"
      = removeClientSession
          [("alice", [⟨"s1", true⟩]), ("bob", [⟨"s2", true⟩])] "s2" ∧
    removeClientSession
        [("alice", [⟨"s1", true⟩]), ("bob", [⟨"s2", true⟩])] "zz"
      = [("alice", [⟨"s1", true⟩]), ("bob", [⟨"s2", true⟩])] :=
  ⟨by decide,
   (removeClientSession_idempotent_noop
      [("alice", [⟨"s1", true⟩]), ("bob", [⟨"s2", true⟩])] "s2").1 (by decide),
   (removeClientSession_idempotent_noop
      [("alice", [⟨"s1", true⟩]), ("bob", [⟨"s2", true⟩])] "zz").2 (by decide)⟩

/-- Any id present after a registration was present before or is the
registered session's id. -/
theorem mem_sessionIds_registerSession (reg : Registry) (user : String)
    (cs : ClientSession) (x : String)
    (h : x ∈ sessionIds (registerSession reg user cs)) :
    x ∈ sessionIds reg ∨ x = cs.id := by
  induction reg with
  | nil =>
    right
    have h' : x ∈ [cs.id] := h
    simpa using h'
  | cons e rest ih =>
    rcases e with ⟨u, ss⟩
    by_cases hu : u = user
    · simp only [registerSession, hu, if_true, sessionIds_cons,
        List.map_append] at h
      rcases List.mem_append.mp h with h1 | h2
      · rcases List.mem_append.mp h1 with h3 | h4
        · exact Or.inl (by rw [sessionIds_cons]; exact List.mem_append_left _ h3)
        · exact Or.inr (by simpa using h4)
      · exact Or.inl (by rw [sessionIds_cons]; exact List.mem_append_right _ h2)
    · simp only [registerSession, hu, if_false, sessionIds_cons] at h
      rcases List.mem_append.mp h with h1 | h2
      · exact Or.inl (by rw [sessionIds_cons]; exact List.mem_append_left _ h1)
      · rcases ih h2 with h3 | h4
        · exact Or.inl (by rw [sessionIds_cons]; exact List.mem_append_right _ h3)
        · exact Or.inr h4

/-- Registration of a fresh id keeps the ids duplicate-free. -/
theorem registerSession_nodup (reg : Registry) (user : String)
    (cs : ClientSession) (hnd : (sessionIds reg).Nodup)
    (hfresh : cs.id ∉ sessionIds reg) :
    (sessionIds (registerSession reg user cs)).Nodup := by
  induction reg with
  | nil => simp [registerSession, sessionIds]
  | cons e rest ih =>
    rcases e with ⟨u, ss⟩
    rw [sessionIds_cons] at hnd hfresh
    have hnd' := List.nodup_append.mp hnd
    by_cases hu : u = user
    · simp only [registerSession, hu, if_true, sessionIds_cons,
        List.map_append, List.map_cons, List.map_nil]
      have : ss.map (fun s => s.id) ++ [cs.id] ++ sessionIds rest
          = ss.map (fun s => s.id) ++ cs.id :: sessionIds rest := by
        simp
      rw [this, List.nodup_middle]
      exact List.nodup_cons.mpr ⟨hfresh, hnd⟩
    · simp only [registerSession, hu, if_false, sessionIds_cons]
      have hfr : cs.id ∉ sessionIds rest :=
        fun hm => hfresh (List.mem_append_right _ hm)
      have hrec := ih hnd'.2.1 hfr
      refine List.nodup_append.mpr ⟨hnd'.1, hrec, ?_⟩
      intro x hx hx'
      rcases mem_sessionIds_registerSession rest user cs x hx' with h1 | h2
      · exact hnd'.2.2 hx h1
      · exact hfresh (List.mem_append_left _ (h2 ▸ hx))

/-- Registration never creates an empty session slice. -/
theorem registerSession_no_empty (reg : Registry) (user : String)
    (cs : ClientSession) (h : ∀ e ∈ reg, e.2 ≠ []) :
    ∀ e ∈ registerSession reg user cs, e.2 ≠ [] := by
  induction reg with
  | nil =>
    intro e he
    simp only [registerSession, List.mem_singleton] at he
    simp [he]
  | cons hd rest ih =>
    rcases hd with ⟨u, ss⟩
    intro e he
    by_cases hu : u = user
    · simp only [registerSession, hu, if_true] at he
      rcases List.mem_cons.mp he with h1 | h2
      · simp [h1]
      · exact h e (List.mem_cons_of_mem _ h2)
    · simp only [registerSession, hu, if_false] at he
      rcases List.mem_cons.mp he with h1 | h2
      · exact h e (h1 ▸ List.mem_cons_self _ rest)
      · exact ih (fun e' he' => h e' (List.mem_cons_of_mem _ he')) e h2

/-- The ids after a removal form a sublist of the ids before it. -/
theorem removeClientSession_ids_sublist (reg : Registry) (sessionId : String) :
    List.Sublist (sessionIds (removeClientSession reg sessionId)) (sessionIds reg) := by
  induction reg with
  | nil => simp [removeClientSession]
  | cons e rest ih =>
    rcases e with ⟨u, ss⟩
    rcases hany : ss.any (fun s => s.id == sessionId) with _ | _
    · simp only [removeClientSession, hany, Bool.false_eq_true, if_false,
        sessionIds_cons]
      exact (List.Sublist.refl _).append ih
    · simp only [removeClientSession, hany, if_true]
      rcases he : (ss.filter (fun s => s.id != sessionId)).isEmpty with _ | _
      · simp only [he, Bool.false_eq_true, if_false, sessionIds_cons]
        exact ((ss.filter_sublist).map (fun s => s.id)).append (List.Sublist.refl _)
      · simp only [he, if_true, sessionIds_cons]
        exact List.sublist_append_right _ _

/-- Removal never leaves an empty session slice behind. -/
theorem removeClientSession_no_empty (reg : Registry) (sessionId : String)
    (h : ∀ e ∈ reg, e.2 ≠ []) :
    ∀ e ∈ removeClientSession reg sessionId, e.2 ≠ [] := by
  induction reg with
  | nil => intro e he; simp [removeClientSession] at he
  | cons hd rest ih =>
    rcases hd with ⟨u, ss⟩
    have htail : ∀ e ∈ rest, e.2 ≠ [] :=
      fun e' he' => h e' (List.mem_cons_of_mem _ he')
    intro e he
    rcases hany : ss.any (fun s => s.id == sessionId) with _ | _
    · simp only [removeClientSession, hany, Bool.false_eq_true, if_false] at he
      rcases List.mem_cons.mp he with h1 | h2
      · exact h e (h1 ▸ List.mem_cons_self _ rest)
      · exact ih htail e h2
    · simp only [removeClientSession, hany, if_true] at he
      rcases hemp : (ss.filter (fun s => s.id != sessionId)).isEmpty with _ | _
      · rw [hemp] at he
        simp only [Bool.false_eq_true, if_false] at he
        rcases List.mem_cons.mp he with h1 | h2
        · rw [h1]
          intro hnil
          have hfe : List.filter (fun s => s.id != sessionId) ss = [] := hnil
          rw [hfe] at hemp
          simp at hemp
        · exact htail e h2
      · rw [hemp] at he
        simp only [if_true] at he
        exact htail e he

/-- C6: registering a session with a fresh id and removing a session
both preserve the registry invariant (no identity maps to an empty
slice; no session id occurs in two slices or twice in one). -/
theorem registry_ops_preserve_invariant (reg : Registry) (user : String)
    (cs : ClientSession) (sessionId : String) :
    (registryWF reg → cs.id ∉ sessionIds reg →
      registryWF (registerSession reg user cs)) ∧
    (registryWF reg → registryWF (removeClientSession reg sessionId)) := by
  constructor
  · intro hwf hfresh
    exact ⟨registerSession_no_empty reg user cs hwf.1,
      registerSession_nodup reg user cs hwf.2 hfresh⟩
  · intro hwf
    exact ⟨removeClientSession_no_empty reg sessionId hwf.1,
      (removeClientSession_ids_sublist reg sessionId).nodup hwf.2⟩

/-- Witness for C6 on a concrete registry: the invariant and freshness
hypotheses hold, and both registering `bob`'s fresh session `s2` and
removing `alice`'s session `s1` preserve the invariant. -/
theorem registry_ops_preserve_invariant_witness :
    registryWF [("alice", [⟨"s1", true⟩])] ∧
    (⟨"s2", true⟩ : ClientSession).id ∉ sessionIds [("alice", [⟨"s1", true⟩])] ∧
    registryWF (registerSession [("alice", [⟨"s1", true⟩])] "bob" ⟨"s2", true⟩) ∧
    registryWF (removeClientSession [("alice", [⟨"s1", true⟩])] "s1") :=
  ⟨⟨by decide, by decide⟩, by decide,
   (registry_ops_preserve_invariant [("alice", [⟨"s1", true⟩])] "bob"
      ⟨"s2", true⟩ "s1").1 ⟨by decide, by decide⟩ (by decide),
   (registry_ops_preserve_invariant [("alice", [⟨"s1", true⟩])] "bob"
      ⟨"s2", true⟩ "s1").2 ⟨by decide, by decide⟩⟩

/-! ## Broadcast engine (sshserver/server.go) -/

/-- The snapshot `broadcastMessage` takes under the lock: every session
of every identity, in registry order. -/
def snapshotAll (reg : Registry) : List ClientSession :=
  (reg.map (fun e => e.2)).flatten

/-- Observable outcome of one `broadcastMessage` call: the `AddMessage`
deliveries performed, recorded as `(sessionId, user, message)`; the ids
of sessions whose delivery failed (`ui == nil`); and the registry after
the failed sessions are reaped. -/
structure BroadcastResult where
  delivered : List (String × String × String)
  failedIds : List String
  finalReg : Registry
  deriving DecidableEq, Repr

/-- `broadcastMessage` (server.go lines 437–466): snapshot all sessions,
deliver to each usable sink, collect the failed session ids, then remove
each failed session from the registry. -/
def broadcastMessage (reg : Registry) (user message : String) : BroadcastResult :=
  let snapshot := snapshotAll reg
  let delivered := (snapshot.filter (fun cs => cs.uiOk)).map
    (fun cs => (cs.id, user, message))
  let failedIds := (snapshot.filter (fun cs => !cs.uiOk)).map (fun cs => cs.id)
  ⟨delivered, failedIds, failedIds.foldl removeClientSession reg⟩

/-- Concrete scenario registry: identity `alice` with one session and
identity `bob` with two, all sinks usable. -/
def demoRegistry : Registry :=
  [("alice", [⟨"a1", true⟩]), ("bob", [⟨"b1", true⟩, ⟨"b2", true⟩])]

/-- C7: `broadcastMessage` attempts delivery to every registered session
of every identity — each snapshot session either receives the message or
is recorded as failed — and in the scenario with `alice` (1 session) and
`bob` (2 sessions) a broadcast from `alice` delivers to exactly the 3
sinks, `alice`'s own included. -/
theorem broadcastMessage_reaches_all_sessions (reg : Registry)
    (user message : String) (cs : ClientSession) :
    (cs ∈ snapshotAll reg →
      (cs.id, user, message) ∈ (broadcastMessage reg user message).delivered ∨
      cs.id ∈ (broadcastMessage reg user message).failedIds) ∧
    ((broadcastMessage demoRegistry "alice" "hi").delivered
       = [("a1", "alice", "hi"), ("b1", "alice", "hi"), ("b2", "alice", "hi")]) := by
  constructor
  · intro h
    rcases hui : cs.uiOk with _ | _
    · right
      exact List.mem_map.mpr ⟨cs, List.mem_filter.mpr ⟨h, by simp [hui]⟩, rfl⟩
    · left
      exact List.mem_map.mpr ⟨cs, List.mem_filter.mpr ⟨h, hui⟩, rfl⟩
  · decide

/-- Witness for C7: `alice`'s own session `a1` is in the snapshot of the
scenario registry, and the broadcast from `alice` reaches it. -/
theorem broadcastMessage_reaches_all_sessions_witness :
    (⟨"a1", true⟩ : ClientSession) ∈ snapshotAll demoRegistry ∧
    (("a1", "alice", "hi") ∈ (broadcastMessage demoRegistry "alice" "hi").delivered ∨
     "a1" ∈ (broadcastMessage demoRegistry "alice" "hi").failedIds) :=
  ⟨by decide,
   (broadcastMessage_reaches_all_sessions demoRegistry "alice" "hi"
      ⟨"a1", true⟩).1 (by decide)⟩

/-! ## Command replies (registerCommands, server.go lines 634–746) -/

/-- The sessions of one identity (`activeClientsMap[user]`). -/
def sessionsOf : Registry → String → List ClientSession
  | [], _ => []
  | (u, ss) :: rest, user => if u = user then ss else sessionsOf rest user

/-- Recipients of the reply closure the server installs for the `help`,
`users`, and `clear` commands (server.go lines 636–647, 663–674,
703–714, 732–743): despite the comment "Broadcast to the current user
only", the closure iterates **every** identity's sessions and calls
`AddSystemMessage` on each, so the reply reaches all sessions of all
identities. -/
def commandReplyRecipients (reg : Registry) : List String :=
  (reg.map (fun e => e.2.map (fun s => s.id))).flatten

/-- Concrete two-identity registry on which the command-reply routing is
evaluated. -/
def demoRegistryReply : Registry :=
  [("alice", [⟨"a1", true⟩]), ("bob", [⟨"b1", true⟩])]

/-- C1 (code bug, evaluated at the failing input): with identities
`alice` and `bob` registered, the reply closure used for `help`,
`users`, and `clear` delivers the reply to `bob`'s session `b1` even
though `b1` is not one of the issuing identity `alice`'s sessions —
the code reaches other identities' sessions, contradicting both the
spec's `notify` contract and the code's own comment. -/
theorem commandReply_reaches_other_identity :
    "b1" ∈ commandReplyRecipients demoRegistryReply ∧
    "b1" ∉ (sessionsOf demoRegistryReply "alice").map (fun s => s.id) := by
  decide

/-! ## Terminal input loop (ui bridge, SSHTerminalBridge.Start) -/

/-- The sequence of lines `SSHTerminalBridge.Start` hands to the input
handler, given whether a handler is set (`inputFunc != nil`) and the
lines read before the terminating read error: a line is passed exactly
when a handler is set and the line is nonempty. -/
def startInvocations (hasHandler : Bool) : List String → List String
  | [] => []
  | line :: rest =>
    if hasHandler && line != "" then line :: startInvocations hasHandler rest
    else startInvocations hasHandler rest

/-- C10: an empty submitted line is never passed to the input handler —
prepending an empty line changes nothing, and every line the loop passes
on is nonempty — so an empty line is neither offered to the command
dispatcher nor broadcast as chat. -/
theorem start_never_passes_empty_line (hasHandler : Bool) (lines : List String) :
    startInvocations hasHandler ("" :: lines) = startInvocations hasHandler lines ∧
    (startInvocations hasHandler lines).all (fun l => l != "") = true := by
  constructor
  · simp [startInvocations]
  · induction lines with
    | nil => rfl
    | cons line rest ih =>
      rcases hc : hasHandler && line != "" with _ | _
      · simp only [startInvocations, hc, Bool.false_eq_true, if_false]
        exact ih
      · simp only [startInvocations, hc, if_true, List.all_cons, ih,
          Bool.and_true]
        exact (Bool.and_eq_true _ _).mp hc |>.2

/-! ## Claim theorems for the built-in handlers -/

/-- C8: a whisper to a recipient for which `userExists` is false replies
with the "not found" notice, performs no whisper delivery at all, and
returns `(handled = true, error = nil)`. -/
theorem whisper_unknown_recipient (userExists : String → Bool)
    (command sender recipient m : String) (ms : List String)
    (h : userExists recipient = false) :
    whisperHandleCommand userExists command (recipient :: m :: ms) sender
      = ([.systemMessage ("User '" ++ recipient ++ "' not found")], true, none) ∧
    ∀ s r msg, ChatEffect.whisperMsg s r msg ∉
      (whisperHandleCommand userExists command (recipient :: m :: ms) sender).1 := by
  have heq : whisperHandleCommand userExists command (recipient :: m :: ms) sender
      = ([.systemMessage ("User '" ++ recipient ++ "' not found")], true, none) := by
    simp [whisperHandleCommand, h]
  refine ⟨heq, ?_⟩
  intro s r msg hm
  rw [heq] at hm
  simp at hm

/-- Witness for C8: whispering to the unregistered identity `carol`
(no identity exists) yields only the "not found" notice and no
whisper delivery. -/
theorem whisper_unknown_recipient_witness :
    (fun (_ : String) => false) "carol" = false ∧
    (whisperHandleCommand (fun _ => false) "whisper" ["carol", "hi"] "alice"
      = ([.systemMessage ("User '" ++ "carol" ++ "' not found")], true, none) ∧
     ∀ s r msg, ChatEffect.whisperMsg s r msg ∉
       (whisperHandleCommand (fun _ => false) "whisper" ["carol", "hi"] "alice").1) :=
  ⟨rfl, whisper_unknown_recipient (fun _ => false) "whisper" "alice" "carol" "hi" [] rfl⟩

/-- C9: each of the four built-in handlers — help, users, whisper,
clear — returns `handled = true` on every possible
`(command, args, sender)` input, malformed whisper invocations
included. -/
theorem builtin_handlers_always_handled (userExists : String → Bool)
    (users : List String) (helpText command sender : String)
    (args : List String) :
    (helpHandleCommand helpText command args sender).2.1 = true ∧
    (usersHandleCommand users command args sender).2.1 = true ∧
    (whisperHandleCommand userExists command args sender).2.1 = true ∧
    (clearHandleCommand command args sender).2.1 = true := by
  refine ⟨rfl, ?_, ?_, rfl⟩
  · unfold usersHandleCommand
    split <;> rfl
  · unfold whisperHandleCommand
    rcases args with _ | ⟨recipient, _ | ⟨m, ms⟩⟩
    · rfl
    · rfl
    · dsimp only
      split <;> rfl

end GroupChat
